import Mathlib

/-!
Shallow embedding of `src/examples/fastapi-api/main.py` ("Sample API"):
an in-memory CRUD repository per entity kind (users, products, orders),
backed by a process-local list. The module-level mutable lists
(`users_db`, `products_db`, `orders_db`) become explicit state parameters;
each mutating endpoint returns its response together with the post-state.
Python `Optional[int]` ids become `Option Int`; `HTTPException` becomes an
`Err` value carried in `Except`.
-/

namespace SampleApi

/-- `HTTPException(status_code, detail)` as raised by the endpoints. -/
structure Err where
  status_code : Nat
  detail : String
deriving DecidableEq, Repr

/-- The exception raised by `get_user` / `update_user` / `delete_user`:
`HTTPException(status_code=404, detail="User not found")`. -/
def userNotFound : Err := ⟨404, "User not found"⟩

/-- `HTTPException(status_code=404, detail="Product not found")`. -/
def productNotFound : Err := ⟨404, "Product not found"⟩

/-- `HTTPException(status_code=404, detail="Order not found")`. -/
def orderNotFound : Err := ⟨404, "Order not found"⟩

/-- The `User` pydantic model / the user dict stored in `users_db`:
`id: Optional[int] = None`, `name: str`, `email: str`. -/
structure User where
  id : Option Int := none
  name : String
  email : String
deriving DecidableEq, Repr

/-- The `Product` pydantic model: `id: Optional[int]`, `name: str`, `price: float`. -/
structure Product where
  id : Option Int := none
  name : String
  price : Float
deriving Repr

/-- The `Order` pydantic model: `id: Optional[int]`, `user_id: int`,
`items: List[int]`, `total: float`. -/
structure Order where
  id : Option Int := none
  user_id : Int
  items : List Int
  total : Float
deriving Repr

/-- The `{"deleted": True}` response body of `delete_user`. -/
structure DeleteResp where
  deleted : Bool
deriving DecidableEq, Repr

/-- `list_users()`: `return users_db` — the backing list, unchanged. -/
def list_users (users_db : List User) : List User := users_db

/-- The body of `list_users` over a backing store that may be uninitialized
(`none` models a store that is absent / `None`, the scenario exercised by
`main_test.py::test_returns_an_empty_list_when_the_database_is_null`).
The source body is the bare `return users_db` with no absence check, so the
store is returned exactly as it is. -/
def list_users_store (users_db : Option (List User)) : Option (List User) := users_db

/-- `get_user(user_id)`: scan `users_db` in order, return the first user dict
whose `"id"` equals `user_id`; raise 404 "User not found" when none matches.
The scan never mutates the list, so only the response is returned. -/
def get_user (user_id : Int) : List User → Except Err User
  | [] => .error userNotFound
  | user :: rest =>
      if user.id = some user_id then .ok user
      else get_user user_id rest

/-- `create_user(user)`: `user_dict = user.dict()`,
`user_dict["id"] = len(users_db) + 1`, append, return the stored dict.
Result: the created record and the post-state of `users_db`. -/
def create_user (user : User) (users_db : List User) : User × List User :=
  let user_dict : User := { user with id := some ((users_db.length : Int) + 1) }
  (user_dict, users_db ++ [user_dict])

/-- `update_user(user_id, user)`: enumerate `users_db`; at the first index
whose record has `"id" == user_id`, assign
`users_db[i] = {**user.dict(), "id": user_id}` and return it; after an
unsuccessful scan raise 404 "User not found".
Result: the response and the post-state of `users_db`. -/
def update_user (user_id : Int) (user : User) : List User → Except Err User × List User
  | [] => (.error userNotFound, [])
  | existing :: rest =>
      if existing.id = some user_id then
        let updated : User := { user with id := some user_id }
        (.ok updated, updated :: rest)
      else
        let (res, rest') := update_user user_id user rest
        (res, existing :: rest')

/-- `delete_user(user_id)`: enumerate `users_db`; at the first index whose
record has `"id" == user_id`, `del users_db[i]` and return
`{"deleted": True}`; after an unsuccessful scan raise 404 "User not found".
Result: the response and the post-state of `users_db`. -/
def delete_user (user_id : Int) : List User → Except Err DeleteResp × List User
  | [] => (.error userNotFound, [])
  | user :: rest =>
      if user.id = some user_id then (.ok ⟨true⟩, rest)
      else
        let (res, rest') := delete_user user_id rest
        (res, user :: rest')

/-- `list_products()`: `return products_db`. -/
def list_products (products_db : List Product) : List Product := products_db

/-- `get_product(product_id)`: first-match scan of `products_db`, 404 otherwise. -/
def get_product (product_id : Int) : List Product → Except Err Product
  | [] => .error productNotFound
  | product :: rest =>
      if product.id = some product_id then .ok product
      else get_product product_id rest

/-- `create_product(product)`: assign `id = len(products_db) + 1`, append, return. -/
def create_product (product : Product) (products_db : List Product) :
    Product × List Product :=
  let product_dict : Product := { product with id := some ((products_db.length : Int) + 1) }
  (product_dict, products_db ++ [product_dict])

/-- `list_orders()`: `return orders_db`. -/
def list_orders (orders_db : List Order) : List Order := orders_db

/-- `create_order(order)`: assign `id = len(orders_db) + 1`, append, return. -/
def create_order (order : Order) (orders_db : List Order) : Order × List Order :=
  let order_dict : Order := { order with id := some ((orders_db.length : Int) + 1) }
  (order_dict, orders_db ++ [order_dict])

/-- `get_order(order_id)`: first-match scan of `orders_db`, 404 otherwise. -/
def get_order (order_id : Int) : List Order → Except Err Order
  | [] => .error orderNotFound
  | order :: rest =>
      if order.id = some order_id then .ok order
      else get_order order_id rest

/-- One repository operation on the users repository, as invoked through the
endpoints. -/
inductive Op where
  | create (user : User)
  | listAll
  | get (user_id : Int)
  | update (user_id : Int) (user : User)
  | delete (user_id : Int)
deriving Repr

/-- Whether an operation is a delete. -/
def Op.isDelete : Op → Bool
  | .delete _ => true
  | _ => false

/-- The users-repository state after one endpoint call: reads leave
`users_db` unchanged; `create_user`, `update_user` and `delete_user` leave
the post-state they return. -/
def applyOp (users_db : List User) : Op → List User
  | .create user => (create_user user users_db).2
  | .listAll => list_users users_db
  | .get _ => users_db
  | .update user_id user => (update_user user_id user users_db).2
  | .delete user_id => (delete_user user_id users_db).2

/-- The users-repository state after a sequence of endpoint calls, starting
from the empty repository (`users_db = []` at process start). -/
def runOps (ops : List Op) : List User :=
  ops.foldl applyOp []

/-- The records returned by a sequence of consecutive `create_user` calls
(first component), threading the post-state from call to call. -/
def createResults : List User → List User → List User
  | [], _ => []
  | user :: rest, users_db =>
      let (r, users_db') := create_user user users_db
      r :: createResults rest users_db'

/-- The id column `[some 1, some 2, ..., some n]` of a repository that has
only ever been appended to: record `i` (0-based) carries id `i + 1`. -/
def seqIdsTo (n : Nat) : List (Option Int) :=
  (List.range n).map (fun (i : Nat) => some ((i : Int) + 1))

/-! Unfolding equations for the scan loops. -/

theorem get_user_nil (user_id : Int) : get_user user_id [] = .error userNotFound := rfl

theorem get_user_cons_pos (user_id : Int) (u : User) (rest : List User)
    (h : u.id = some user_id) : get_user user_id (u :: rest) = .ok u := by
  simp [get_user, h]

theorem get_user_cons_neg (user_id : Int) (u : User) (rest : List User)
    (h : ¬ u.id = some user_id) :
    get_user user_id (u :: rest) = get_user user_id rest := by
  simp [get_user, h]

theorem update_user_nil (user_id : Int) (user : User) :
    update_user user_id user [] = (.error userNotFound, []) := rfl

theorem update_user_cons_pos (user_id : Int) (user e : User) (rest : List User)
    (h : e.id = some user_id) :
    update_user user_id user (e :: rest) =
      (.ok { user with id := some user_id }, { user with id := some user_id } :: rest) := by
  simp [update_user, h]

theorem update_user_cons_neg (user_id : Int) (user e : User) (rest : List User)
    (h : ¬ e.id = some user_id) :
    update_user user_id user (e :: rest) =
      ((update_user user_id user rest).1, e :: (update_user user_id user rest).2) := by
  simp [update_user, h]

theorem delete_user_nil (user_id : Int) :
    delete_user user_id [] = (.error userNotFound, []) := rfl

theorem delete_user_cons_pos (user_id : Int) (e : User) (rest : List User)
    (h : e.id = some user_id) :
    delete_user user_id (e :: rest) = (.ok ⟨true⟩, rest) := by
  simp [delete_user, h]

theorem delete_user_cons_neg (user_id : Int) (e : User) (rest : List User)
    (h : ¬ e.id = some user_id) :
    delete_user user_id (e :: rest) =
      ((delete_user user_id rest).1, e :: (delete_user user_id rest).2) := by
  simp [delete_user, h]

/-! Error characterization: each scan fails exactly on an id-free list. -/

theorem get_user_eq_error_iff (user_id : Int) (db : List User) :
    get_user user_id db = .error userNotFound ↔ ∀ x ∈ db, x.id ≠ some user_id := by
  induction db with
  | nil => simp [get_user]
  | cons u rest ih =>
    by_cases h : u.id = some user_id
    · simp [get_user_cons_pos user_id u rest h, h]
    · simp [get_user_cons_neg user_id u rest h, h, ih]

theorem update_user_eq_of_none (user_id : Int) (user : User) (db : List User)
    (h : ∀ x ∈ db, x.id ≠ some user_id) :
    update_user user_id user db = (.error userNotFound, db) := by
  induction db with
  | nil => rfl
  | cons u rest ih =>
    have hu : ¬ u.id = some user_id := h u (by simp)
    have hrest := ih (fun x hx => h x (by simp [hx]))
    rw [update_user_cons_neg user_id user u rest hu, hrest]

theorem update_user_fst_eq_error_iff (user_id : Int) (user : User) (db : List User) :
    (update_user user_id user db).1 = .error userNotFound ↔
      ∀ x ∈ db, x.id ≠ some user_id := by
  induction db with
  | nil => simp [update_user]
  | cons u rest ih =>
    by_cases h : u.id = some user_id
    · simp [update_user_cons_pos user_id user u rest h, h]
    · simp [update_user_cons_neg user_id user u rest h, h, ih]

theorem delete_user_eq_of_none (user_id : Int) (db : List User)
    (h : ∀ x ∈ db, x.id ≠ some user_id) :
    delete_user user_id db = (.error userNotFound, db) := by
  induction db with
  | nil => rfl
  | cons u rest ih =>
    have hu : ¬ u.id = some user_id := h u (by simp)
    have hrest := ih (fun x hx => h x (by simp [hx]))
    rw [delete_user_cons_neg user_id u rest hu, hrest]

theorem delete_user_fst_eq_error_iff (user_id : Int) (db : List User) :
    (delete_user user_id db).1 = .error userNotFound ↔
      ∀ x ∈ db, x.id ≠ some user_id := by
  induction db with
  | nil => simp [delete_user]
  | cons u rest ih =>
    by_cases h : u.id = some user_id
    · simp [delete_user_cons_pos user_id u rest h, h]
    · simp [delete_user_cons_neg user_id u rest h, h, ih]

/-! First-match behaviour on a decomposed list. -/

theorem get_user_first (user_id : Int) (p : List User) (r : User) (q : List User)
    (hp : ∀ x ∈ p, x.id ≠ some user_id) (hr : r.id = some user_id) :
    get_user user_id (p ++ r :: q) = .ok r := by
  induction p with
  | nil => simpa using get_user_cons_pos user_id r q hr
  | cons a p ih =>
    have ha : ¬ a.id = some user_id := hp a (by simp)
    rw [List.cons_append, get_user_cons_neg user_id a (p ++ r :: q) ha]
    exact ih (fun x hx => hp x (by simp [hx]))

theorem update_user_first (user_id : Int) (user : User) (p : List User) (old : User)
    (q : List User) (hp : ∀ x ∈ p, x.id ≠ some user_id) (ho : old.id = some user_id) :
    update_user user_id user (p ++ old :: q) =
      (.ok { user with id := some user_id },
       p ++ { user with id := some user_id } :: q) := by
  induction p with
  | nil => simpa using update_user_cons_pos user_id user old q ho
  | cons a p ih =>
    have ha : ¬ a.id = some user_id := hp a (by simp)
    rw [List.cons_append, update_user_cons_neg user_id user a (p ++ old :: q) ha,
      ih (fun x hx => hp x (by simp [hx]))]
    simp

theorem delete_user_first (user_id : Int) (p : List User) (old : User) (q : List User)
    (hp : ∀ x ∈ p, x.id ≠ some user_id) (ho : old.id = some user_id) :
    delete_user user_id (p ++ old :: q) = (.ok ⟨true⟩, p ++ q) := by
  induction p with
  | nil => simpa using delete_user_cons_pos user_id old q ho
  | cons a p ih =>
    have ha : ¬ a.id = some user_id := hp a (by simp)
    rw [List.cons_append, delete_user_cons_neg user_id a (p ++ old :: q) ha,
      ih (fun x hx => hp x (by simp [hx])), List.cons_append]

/-- Any list containing a match for `user_id` splits as a match-free prefix,
the first matching record, and a suffix. -/
theorem exists_first_match (user_id : Int) (db : List User)
    (h : ∃ x ∈ db, x.id = some user_id) :
    ∃ p old q, db = p ++ old :: q ∧ (∀ x ∈ p, x.id ≠ some user_id) ∧
      old.id = some user_id := by
  induction db with
  | nil => simp at h
  | cons u rest ih =>
    by_cases hu : u.id = some user_id
    · exact ⟨[], u, rest, by simp, by simp, hu⟩
    · have hrest : ∃ x ∈ rest, x.id = some user_id := by
        rcases h with ⟨x, hx, hxid⟩
        rcases List.mem_cons.mp hx with rfl | hx'
        · exact absurd hxid hu
        · exact ⟨x, hx', hxid⟩
      rcases ih hrest with ⟨p, old, q, hdb, hp, ho⟩
      refine ⟨u :: p, old, q, by simp [hdb], ?_, ho⟩
      intro x hx
      rcases List.mem_cons.mp hx with rfl | hx'
      · exact hu
      · exact hp x hx'

/-! Sequential-id invariant for delete-free operation sequences. -/

theorem seqIdsTo_succ (n : Nat) :
    seqIdsTo (n + 1) = seqIdsTo n ++ [some ((n : Int) + 1)] := by
  simp [seqIdsTo, List.range_succ]

theorem seqIdsTo_nodup (n : Nat) : (seqIdsTo n).Nodup := by
  have hinj : Function.Injective (fun i : Nat => some ((i : Int) + 1)) := by
    intro a b h
    simpa using h
  exact (List.nodup_range n).map hinj

theorem update_user_snd_map_id (user_id : Int) (user : User) (db : List User) :
    (update_user user_id user db).2.map (fun x => x.id) = db.map (fun x => x.id) := by
  induction db with
  | nil => rfl
  | cons u rest ih =>
    by_cases h : u.id = some user_id
    · rw [update_user_cons_pos user_id user u rest h]
      simp [h]
    · rw [update_user_cons_neg user_id user u rest h]
      simp [ih]

theorem applyOp_preserves_seq (db : List User) (op : Op) (hop : op.isDelete = false)
    (h : db.map (fun x => x.id) = seqIdsTo db.length) :
    (applyOp db op).map (fun x => x.id) = seqIdsTo (applyOp db op).length := by
  cases op with
  | create user =>
      have hc : applyOp db (Op.create user) =
          db ++ [{ user with id := some ((db.length : Int) + 1) }] := rfl
      rw [hc]
      simp [h, seqIdsTo_succ]
  | listAll => exact h
  | get user_id => exact h
  | update user_id user =>
      have hmap := update_user_snd_map_id user_id user db
      have hlen : (update_user user_id user db).2.length = db.length := by
        have := congrArg List.length hmap
        simpa using this
      have ha : applyOp db (Op.update user_id user) = (update_user user_id user db).2 := rfl
      rw [ha, hmap, hlen, h]
  | delete user_id => simp [Op.isDelete] at hop

theorem foldl_applyOp_seq (ops : List Op) :
    ∀ db, (∀ op ∈ ops, op.isDelete = false) →
      db.map (fun x => x.id) = seqIdsTo db.length →
      (ops.foldl applyOp db).map (fun x => x.id) =
        seqIdsTo ((ops.foldl applyOp db).length) := by
  induction ops with
  | nil =>
    intro db _ h
    simpa using h
  | cons op ops ih =>
    intro db hops h
    have hop : op.isDelete = false := hops op (by simp)
    have h' := applyOp_preserves_seq db op hop h
    simpa using ih (applyOp db op) (fun o ho => hops o (by simp [ho])) h'

/-! Ids handed out by consecutive creates. -/

theorem createResults_cons (u : User) (us : List User) (db : List User) :
    createResults (u :: us) db =
      (create_user u db).1 :: createResults us (create_user u db).2 := rfl

theorem createResults_id_lb (us : List User) :
    ∀ db r, r ∈ createResults us db →
      ∃ k : Int, r.id = some k ∧ (db.length : Int) < k := by
  induction us with
  | nil =>
    intro db r hr
    simp [createResults] at hr
  | cons u us ih =>
    intro db r hr
    rw [createResults_cons] at hr
    rcases List.mem_cons.mp hr with rfl | hr'
    · exact ⟨(db.length : Int) + 1, rfl, by omega⟩
    · rcases ih (create_user u db).2 r hr' with ⟨k, hk, hlt⟩
      refine ⟨k, hk, ?_⟩
      have hlen : (create_user u db).2.length = db.length + 1 := by simp [create_user]
      rw [hlen] at hlt
      push_cast at hlt ⊢
      omega

theorem createResults_pairwise_lt (us : List User) :
    ∀ db, List.Pairwise
      (fun a b => ∀ x y : Int, a.id = some x → b.id = some y → x < y)
      (createResults us db) := by
  induction us with
  | nil =>
    intro db
    simp [createResults]
  | cons u us ih =>
    intro db
    rw [createResults_cons]
    refine List.Pairwise.cons ?_ (ih (create_user u db).2)
    intro b hb x y hx hy
    rcases createResults_id_lb us (create_user u db).2 b hb with ⟨k, hk, hlt⟩
    have hxeq : some ((db.length : Int) + 1) = some x := hx
    have hx1 : x = (db.length : Int) + 1 := (Option.some.inj hxeq).symm
    have hyk : y = k := by
      rw [hy] at hk
      exact Option.some.inj hk
    have hlen : (create_user u db).2.length = db.length + 1 := by simp [create_user]
    rw [hlen] at hlt
    push_cast at hlt
    omega

/-! The only error any scan can produce is its constant 404 message. -/

theorem get_user_ok_or_error (user_id : Int) (db : List User) :
    (∃ r, get_user user_id db = .ok r) ∨ get_user user_id db = .error userNotFound := by
  induction db with
  | nil => exact .inr rfl
  | cons u rest ih =>
    by_cases h : u.id = some user_id
    · exact .inl ⟨u, get_user_cons_pos user_id u rest h⟩
    · rw [get_user_cons_neg user_id u rest h]
      exact ih

theorem update_user_fst_ok_or_error (user_id : Int) (user : User) (db : List User) :
    (∃ r, (update_user user_id user db).1 = .ok r) ∨
      (update_user user_id user db).1 = .error userNotFound := by
  induction db with
  | nil => exact .inr rfl
  | cons u rest ih =>
    by_cases h : u.id = some user_id
    · rw [update_user_cons_pos user_id user u rest h]
      exact .inl ⟨_, rfl⟩
    · rw [update_user_cons_neg user_id user u rest h]
      exact ih

theorem delete_user_fst_ok_or_error (user_id : Int) (db : List User) :
    (∃ r, (delete_user user_id db).1 = .ok r) ∨
      (delete_user user_id db).1 = .error userNotFound := by
  induction db with
  | nil => exact .inr rfl
  | cons u rest ih =>
    by_cases h : u.id = some user_id
    · rw [delete_user_cons_pos user_id u rest h]
      exact .inl ⟨_, rfl⟩
    · rw [delete_user_cons_neg user_id u rest h]
      exact ih

theorem get_order_ok_or_error (order_id : Int) (db : List Order) :
    (∃ r, get_order order_id db = .ok r) ∨
      get_order order_id db = .error orderNotFound := by
  induction db with
  | nil => exact .inr rfl
  | cons o rest ih =>
    by_cases h : o.id = some order_id
    · exact .inl ⟨o, by simp [get_order, h]⟩
    · have hstep : get_order order_id (o :: rest) = get_order order_id rest := by
        simp [get_order, h]
      rw [hstep]
      exact ih

/-- Claim C1: for every repository state and field mapping, each create
endpoint (`create_user`, `create_product`, `create_order`) assigns the new
record the id (current record count + 1), overwriting any caller-supplied
id, keeps the other fields exactly as supplied, appends the resulting record
to the end of the sequence, and returns the stored record; being a total
function, it never fails under well-formed input. -/
theorem c1_create_assigns_and_appends (u : User) (db : List User)
    (p : Product) (pdb : List Product) (o : Order) (odb : List Order) :
    (create_user u db).1.id = some ((db.length : Int) + 1) ∧
    (create_user u db).1.name = u.name ∧
    (create_user u db).1.email = u.email ∧
    (create_user u db).2 = db ++ [(create_user u db).1] ∧
    (create_product p pdb).1.id = some ((pdb.length : Int) + 1) ∧
    (create_product p pdb).1.name = p.name ∧
    (create_product p pdb).1.price = p.price ∧
    (create_product p pdb).2 = pdb ++ [(create_product p pdb).1] ∧
    (create_order o odb).1.id = some ((odb.length : Int) + 1) ∧
    (create_order o odb).1.user_id = o.user_id ∧
    (create_order o odb).1.items = o.items ∧
    (create_order o odb).1.total = o.total ∧
    (create_order o odb).2 = odb ++ [(create_order o odb).1] :=
  ⟨rfl, rfl, rfl, rfl, rfl, rfl, rfl, rfl, rfl, rfl, rfl, rfl, rfl⟩

/-- Claim C2 fails on the code: starting from the empty repository, the
operation sequence create A, create B, delete 1, create C leaves two stored
records that share id 2, because create assigns (current length + 1) and the
delete shrank the list; id uniqueness does not hold at all times. -/
theorem c2_counterexample_duplicate_ids :
    ¬ ((runOps [Op.create ⟨none, "A", "a"⟩, Op.create ⟨none, "B", "b"⟩,
        Op.delete 1, Op.create ⟨none, "C", "c"⟩]).map (fun u => u.id)).Nodup := by
  decide

/-- Claim C2 amended: for every sequence of repository operations containing
no delete, starting from the empty repository, the stored ids are pairwise
distinct; since every prefix of a delete-free sequence is again delete-free,
this holds at every point of the sequence. -/
theorem c2_amended_ids_nodup (ops : List Op)
    (h : ∀ op ∈ ops, op.isDelete = false) :
    ((runOps ops).map (fun u => u.id)).Nodup := by
  have hinv := foldl_applyOp_seq ops [] h (by simp [seqIdsTo])
  show ((ops.foldl applyOp []).map (fun u => u.id)).Nodup
  rw [hinv]
  exact seqIdsTo_nodup _

theorem c2_amended_ids_nodup_witness :
    ((runOps [Op.create ⟨none, "Alice", "a@x.com"⟩,
        Op.create ⟨none, "Bob", "b@x.com"⟩]).map (fun u => u.id)).Nodup :=
  c2_amended_ids_nodup _ (by decide)

/-- Claim C3: get, update and delete fail with the NotFound error exactly
when no record in the repository carries the requested id; in particular
they never silently no-op or report success on a missing id. -/
theorem c3_notfound_iff_absent (user_id : Int) (user : User) (db : List User) :
    (get_user user_id db = .error userNotFound ↔
      ∀ x ∈ db, x.id ≠ some user_id) ∧
    ((update_user user_id user db).1 = .error userNotFound ↔
      ∀ x ∈ db, x.id ≠ some user_id) ∧
    ((delete_user user_id db).1 = .error userNotFound ↔
      ∀ x ∈ db, x.id ≠ some user_id) :=
  ⟨get_user_eq_error_iff user_id db,
    update_user_fst_eq_error_iff user_id user db,
    delete_user_fst_eq_error_iff user_id db⟩

/-- Claim C4 fails on the code: the state [{id 2, Bob}] is reachable from the
empty repository (create, create, delete 1); creating Carol there assigns her
the already-used id 2, and get 2 afterwards returns Bob's record — not the
record create returned. -/
theorem c4_counterexample_get_returns_other_record :
    runOps [Op.create ⟨none, "X", "x@x.com"⟩, Op.create ⟨none, "Bob", "b@x.com"⟩,
        Op.delete 1] = [⟨some 2, "Bob", "b@x.com"⟩] ∧
    (create_user ⟨none, "Carol", "c@x.com"⟩ [⟨some 2, "Bob", "b@x.com"⟩]).1 =
      ⟨some 2, "Carol", "c@x.com"⟩ ∧
    get_user 2 (create_user ⟨none, "Carol", "c@x.com"⟩
        [⟨some 2, "Bob", "b@x.com"⟩]).2 = .ok ⟨some 2, "Bob", "b@x.com"⟩ ∧
    (⟨some 2, "Bob", "b@x.com"⟩ : User) ≠ ⟨some 2, "Carol", "c@x.com"⟩ :=
  ⟨by decide, rfl, rfl, by decide⟩

/-- Claim C4 amended: whenever no existing record already carries the id
(current count + 1) that create is about to assign — in particular in any
state built without deletions — create(fields) followed by get on the id of
the returned record yields exactly the record create returned. -/
theorem c4_amended_create_then_get (u : User) (db : List User)
    (h : ∀ x ∈ db, x.id ≠ some ((db.length : Int) + 1)) :
    get_user ((db.length : Int) + 1) (create_user u db).2 =
      .ok (create_user u db).1 := by
  have hid : (create_user u db).1.id = some ((db.length : Int) + 1) := rfl
  have hsplit : (create_user u db).2 = db ++ (create_user u db).1 :: [] := rfl
  rw [hsplit]
  exact get_user_first _ db _ [] h hid

theorem c4_amended_create_then_get_witness :
    get_user 1 (create_user ⟨none, "Alice", "a@x.com"⟩ []).2 =
      .ok (create_user ⟨none, "Alice", "a@x.com"⟩ []).1 :=
  c4_amended_create_then_get ⟨none, "Alice", "a@x.com"⟩ [] (by decide)

/-- Claim C5: when some record carries the requested id, update replaces the
first such record in place — same position, fields taken from the supplied
mapping, id forced to the path id — and returns the new record; a subsequent
get on that id returns exactly this new record, whose non-id fields equal
the supplied fields and whose id is unchanged. -/
theorem c5_update_in_place_then_get (user_id : Int) (user : User) (db : List User)
    (h : ∃ x ∈ db, x.id = some user_id) :
    ∃ p old q, db = p ++ old :: q ∧ (∀ x ∈ p, x.id ≠ some user_id) ∧
      old.id = some user_id ∧
      update_user user_id user db =
        (.ok { user with id := some user_id },
         p ++ { user with id := some user_id } :: q) ∧
      get_user user_id (update_user user_id user db).2 =
        .ok { user with id := some user_id } ∧
      ({ user with id := some user_id } : User).name = user.name ∧
      ({ user with id := some user_id } : User).email = user.email ∧
      ({ user with id := some user_id } : User).id = some user_id := by
  rcases exists_first_match user_id db h with ⟨p, old, q, rfl, hp, ho⟩
  have hupd := update_user_first user_id user p old q hp ho
  refine ⟨p, old, q, rfl, hp, ho, hupd, ?_, rfl, rfl, rfl⟩
  rw [hupd]
  exact get_user_first user_id p _ q hp rfl

theorem c5_update_in_place_then_get_witness :
    ∃ p old q,
      ([⟨some 1, "Alice", "a@x.com"⟩, ⟨some 2, "Bob", "b@x.com"⟩] : List User) =
        p ++ old :: q ∧
      (∀ x ∈ p, x.id ≠ some 2) ∧ old.id = some 2 ∧
      update_user 2 ⟨none, "Bobby", "bb@x.com"⟩
          [⟨some 1, "Alice", "a@x.com"⟩, ⟨some 2, "Bob", "b@x.com"⟩] =
        (.ok ⟨some 2, "Bobby", "bb@x.com"⟩,
         p ++ (⟨some 2, "Bobby", "bb@x.com"⟩ : User) :: q) ∧
      get_user 2 (update_user 2 ⟨none, "Bobby", "bb@x.com"⟩
          [⟨some 1, "Alice", "a@x.com"⟩, ⟨some 2, "Bob", "b@x.com"⟩]).2 =
        .ok ⟨some 2, "Bobby", "bb@x.com"⟩ ∧
      (⟨some 2, "Bobby", "bb@x.com"⟩ : User).name = "Bobby" ∧
      (⟨some 2, "Bobby", "bb@x.com"⟩ : User).email = "bb@x.com" ∧
      (⟨some 2, "Bobby", "bb@x.com"⟩ : User).id = some 2 :=
  c5_update_in_place_then_get 2 ⟨none, "Bobby", "bb@x.com"⟩ _
    ⟨⟨some 2, "Bob", "b@x.com"⟩, by decide, rfl⟩

/-- Claim C6 fails on the code: the duplicate-id state [{id 2, B}, {id 2, C}]
is reachable from the empty repository; it contains a record with id 2, and
delete 2 removes only the first match, so the subsequent get 2 succeeds
instead of failing with NotFound. -/
theorem c6_counterexample_get_succeeds_after_delete :
    runOps [Op.create ⟨none, "A", "a"⟩, Op.create ⟨none, "B", "b"⟩,
        Op.delete 1, Op.create ⟨none, "C", "c"⟩] =
      [⟨some 2, "B", "b"⟩, ⟨some 2, "C", "c"⟩] ∧
    delete_user 2 [⟨some 2, "B", "b"⟩, ⟨some 2, "C", "c"⟩] =
      (.ok ⟨true⟩, [⟨some 2, "C", "c"⟩]) ∧
    get_user 2 [⟨some 2, "C", "c"⟩] = .ok ⟨some 2, "C", "c"⟩ ∧
    get_user 2 [⟨some 2, "C", "c"⟩] ≠ .error userNotFound := by
  refine ⟨by decide, rfl, rfl, fun hcontra => ?_⟩
  have h : (Except.ok (⟨some 2, "C", "c"⟩ : User) : Except Err User) =
      .error userNotFound := hcontra
  exact Except.noConfusion h

/-- Claim C6 amended: in every repository state where at most one record
carries the given id (in particular whenever ids are pairwise distinct) and
some record does carry it, delete removes exactly that record — preserving
the relative order of the remaining records — returns the confirmation, and
a subsequent get on that id fails with NotFound. -/
theorem c6_amended_delete_then_get (user_id : Int) (db : List User)
    (hex : ∃ x ∈ db, x.id = some user_id)
    (huniq : db.countP (fun x => decide (x.id = some user_id)) ≤ 1) :
    ∃ p old q, db = p ++ old :: q ∧ (∀ x ∈ p, x.id ≠ some user_id) ∧
      old.id = some user_id ∧
      delete_user user_id db = (.ok ⟨true⟩, p ++ q) ∧
      get_user user_id (p ++ q) = .error userNotFound := by
  rcases exists_first_match user_id db hex with ⟨p, old, q, rfl, hp, ho⟩
  have hq : ∀ x ∈ q, x.id ≠ some user_id := by
    intro x hx hxid
    have hcq : 0 < q.countP (fun y => decide (y.id = some user_id)) :=
      List.countP_pos_iff.mpr ⟨x, hx, by simp [hxid]⟩
    have hsplit : (p ++ old :: q).countP (fun y => decide (y.id = some user_id)) =
        p.countP (fun y => decide (y.id = some user_id)) +
          (old :: q).countP (fun y => decide (y.id = some user_id)) :=
      List.countP_append _ _ _
    have hcons : (old :: q).countP (fun y => decide (y.id = some user_id)) =
        q.countP (fun y => decide (y.id = some user_id)) + 1 :=
      List.countP_cons_of_pos _ _ (by simp [ho])
    rw [hsplit, hcons] at huniq
    omega
  refine ⟨p, old, q, rfl, hp, ho, delete_user_first user_id p old q hp ho, ?_⟩
  apply (get_user_eq_error_iff user_id (p ++ q)).mpr
  intro x hx
  rcases List.mem_append.mp hx with hxp | hxq
  · exact hp x hxp
  · exact hq x hxq

theorem c6_amended_delete_then_get_witness :
    ∃ p old q,
      ([⟨some 1, "A", "a"⟩, ⟨some 2, "B", "b"⟩] : List User) = p ++ old :: q ∧
      (∀ x ∈ p, x.id ≠ some 1) ∧ old.id = some 1 ∧
      delete_user 1 [⟨some 1, "A", "a"⟩, ⟨some 2, "B", "b"⟩] =
        (.ok ⟨true⟩, p ++ q) ∧
      get_user 1 (p ++ q) = .error userNotFound :=
  c6_amended_delete_then_get 1 _ ⟨⟨some 1, "A", "a"⟩, by decide, rfl⟩ (by decide)

/-- Claim C7: starting from any repository state, the records returned by a
sequence of consecutive create calls (no intervening deletes) carry ids that
are assigned (each a `some` strictly above the starting record count),
strictly increasing in call order, and pairwise distinct. -/
theorem c7_create_ids_strictly_increasing (us : List User) (db : List User) :
    (∀ r ∈ createResults us db, ∃ k : Int, r.id = some k ∧ (db.length : Int) < k) ∧
    List.Pairwise (fun a b => ∀ x y : Int, a.id = some x → b.id = some y → x < y)
      (createResults us db) ∧
    List.Pairwise (fun a b => a.id ≠ b.id) (createResults us db) := by
  refine ⟨fun r hr => createResults_id_lb us db r hr,
    createResults_pairwise_lt us db, ?_⟩
  refine List.Pairwise.imp_of_mem ?_ (createResults_pairwise_lt us db)
  intro a b ha hb hrel
  rcases createResults_id_lb us db a ha with ⟨x, hx, _⟩
  rcases createResults_id_lb us db b hb with ⟨y, hy, _⟩
  have hlt := hrel x y hx hy
  rw [hx, hy]
  intro hcontra
  have hxy : x = y := Option.some.inj hcontra
  omega

/-- Claim C8 (code bug): list on the fresh empty repository does return the
empty sequence, but the code has no tolerance for an uninitialized backing
store: its body returns the store exactly as it is, so an absent store
(`None`, the case exercised by the repository's own test suite) comes back
as-is rather than as an empty sequence. -/
theorem c8_list_empty_but_no_absence_tolerance :
    list_users [] = [] ∧
    list_users_store (some []) = some [] ∧
    list_users_store none = none ∧
    list_users_store none ≠ some [] :=
  ⟨rfl, rfl, rfl, fun h => Option.noConfusion h⟩

/-- Claim C9: a failing get, update or delete leaves the repository state
completely unchanged: reads never touch the state, and on a missing id both
update and delete return the NotFound error together with the untouched
input list — no partial-failure states. -/
theorem c9_failed_ops_preserve_state (user_id : Int) (user : User) (db : List User) :
    applyOp db (Op.get user_id) = db ∧
    ((update_user user_id user db).1 = .error userNotFound →
      update_user user_id user db = (.error userNotFound, db)) ∧
    ((delete_user user_id db).1 = .error userNotFound →
      delete_user user_id db = (.error userNotFound, db)) := by
  refine ⟨rfl, fun h => ?_, fun h => ?_⟩
  · exact update_user_eq_of_none user_id user db
      ((update_user_fst_eq_error_iff user_id user db).mp h)
  · exact delete_user_eq_of_none user_id db
      ((delete_user_fst_eq_error_iff user_id db).mp h)

theorem c9_failed_ops_preserve_state_witness :
    update_user 3 ⟨none, "N", "n"⟩ [⟨some 1, "A", "a"⟩] =
      (.error userNotFound, [⟨some 1, "A", "a"⟩]) :=
  (c9_failed_ops_preserve_state 3 ⟨none, "N", "n"⟩ [⟨some 1, "A", "a"⟩]).2.1 rfl

/-- Claim C10 fails on the code: the NotFound detail message is the constant
"<Kind> not found"; two different missing ids produce the identical message,
so the message does not identify the missing id. -/
theorem c10_counterexample_message_lacks_id :
    get_user 5 [] = .error ⟨404, "User not found"⟩ ∧
    get_user 7 [] = .error ⟨404, "User not found"⟩ ∧
    get_order 5 [] = .error ⟨404, "Order not found"⟩ ∧
    get_order 7 [] = .error ⟨404, "Order not found"⟩ ∧
    (5 : Int) ≠ 7 :=
  ⟨rfl, rfl, rfl, rfl, by decide⟩

/-- Claim C10 amended: every NotFound failure from get/update/delete carries
the fixed human-readable message "<entity kind> not found", which identifies
the entity kind of the repository that raised it but not the missing id —
the message is independent of the id. -/
theorem c10_amended_message_names_kind (user_id : Int) (user : User)
    (db : List User) (odb : List Order) :
    ((∃ r, get_user user_id db = .ok r) ∨
      get_user user_id db = .error ⟨404, "User not found"⟩) ∧
    ((∃ r, (update_user user_id user db).1 = .ok r) ∨
      (update_user user_id user db).1 = .error ⟨404, "User not found"⟩) ∧
    ((∃ r, (delete_user user_id db).1 = .ok r) ∨
      (delete_user user_id db).1 = .error ⟨404, "User not found"⟩) ∧
    ((∃ r, get_order user_id odb = .ok r) ∨
      get_order user_id odb = .error ⟨404, "Order not found"⟩) :=
  ⟨get_user_ok_or_error user_id db,
    update_user_fst_ok_or_error user_id user db,
    delete_user_fst_ok_or_error user_id db,
    get_order_ok_or_error user_id odb⟩

end SampleApi
